import Mathlib

/-!
Verification development for the birch FTDC tooling.

The definitions below are shallow embeddings of the Go sources:

* `src/sample_iterator.go` — the document flattener (`flattenDocument`,
  `flattenArray`, `metricForType`), the header-field decoder `unpackInt`,
  and the per-sample document stream `streamDocuments`;
* `src/cmd/ftdc/main.go` — the `decode` / `export` CLI pipeline stages
  (chunk clipping, chunk merging, error reporting).

Modelling conventions: Go `int`/`int64` values are modelled as `Int` (no
operation proved about here overflows 64 bits); Go byte/uint32 values are
modelled as `Fin 256` / `Nat` with explicit wrap-around where the source
casts; BSON float64 payloads are modelled as exact rationals `ℚ`, with
Go's float-to-int conversion (truncation toward zero) modelled as
`Int.tdiv` on numerator and denominator; fallible operations return
`Except`/`Option`.
-/

/-- Metric produced by the flattener in `sample_iterator.go`: the path of
parent keys, the leaf key name and the 64-bit starting value. -/
structure Metric where
  ParentPath : List String
  KeyName : String
  StartingValue : Int
  deriving DecidableEq

/-- Model of the runtime `bson.Value` type that `metricForType` switches
on.  Constructors mirror the BSON types named in the source's `switch`;
`other` stands for every remaining BSON type (null, binary, …), which the
`switch` ignores by falling through.  A float64 payload is modelled as an
exact rational.  An `array` payload carries `none` exactly when
`bson.NewArrayIterator` fails on it (see `newArrayIterator`). -/
inductive BsonValue where
  | objectId
  | str (s : String)
  | decimal128
  | other
  | array (a : Option (List BsonValue))
  | doc (elems : List (String × BsonValue))
  | boolean (b : Bool)
  | double (q : ℚ)
  | int32 (n : Int)
  | int64 (n : Int)
  | datetime (ms : Int)
  | timestamp (t i : Nat)

/-- Go's `int(f)` conversion of a float64 truncates toward zero; on the
rational model this is T-division of numerator by denominator. -/
def truncDouble (q : ℚ) : Int := Int.tdiv q.num q.den

/-- Model of `bson.NewArrayIterator`: it yields the array's elements, or
an error for an array value whose iterator cannot be constructed (the
`none` payload). -/
def newArrayIterator (a : Option (List BsonValue)) : Except String (List BsonValue) :=
  match a with
  | none => Except.error "invalid array"
  | some l => Except.ok l

mutual

/-- Embedding of `flattenDocument` (sample_iterator.go): iterate the
document's elements in order and concatenate `metricForType` results. -/
def flattenDocument (path : List String) (elems : List (String × BsonValue)) : List Metric :=
  match elems with
  | [] => []
  | (key, val) :: rest => metricForType key path val ++ flattenDocument path rest

/-- Embedding of `flattenArray` (sample_iterator.go): on an iterator
construction failure the function returns `nil` (here the `none` case,
which is exactly when `newArrayIterator` errors); otherwise it walks the
elements with keys `key.0`, `key.1`, …. -/
def flattenArray (key : String) (path : List String) (a : Option (List BsonValue)) : List Metric :=
  match a with
  | none => []
  | some l => arrayLoop key path 0 l

/-- Loop body of `flattenArray`: `idx` is the running element index used
to build the `key.idx` child keys. -/
def arrayLoop (key : String) (path : List String) (idx : Nat) (l : List BsonValue) : List Metric :=
  match l with
  | [] => []
  | v :: rest => metricForType (key ++ "." ++ toString idx) path v ++ arrayLoop key path (idx + 1) rest

/-- Embedding of `metricForType` (sample_iterator.go).  Note the embedded
document case: after `path = append(path, key)` the loop rebuilds every
returned metric with `ParentPath: path` — the current level's path — and
only `KeyName`/`startingValue` of the nested metric survive. -/
def metricForType (key : String) (path : List String) (val : BsonValue) : List Metric :=
  match val with
  | .objectId => []
  | .str _ => []
  | .decimal128 => []
  | .other => []
  | .array a => flattenArray key path a
  | .doc elems =>
      let path2 := path ++ [key]
      (flattenDocument path2 elems).map (fun ne =>
        { ParentPath := path2, KeyName := ne.KeyName, StartingValue := ne.StartingValue })
  | .boolean b =>
      if b then [{ ParentPath := path, KeyName := key, StartingValue := 1 }]
      else [{ ParentPath := path, KeyName := key, StartingValue := 0 }]
  | .double q => [{ ParentPath := path, KeyName := key, StartingValue := truncDouble q }]
  | .int32 n => [{ ParentPath := path, KeyName := key, StartingValue := n }]
  | .int64 n => [{ ParentPath := path, KeyName := key, StartingValue := n }]
  | .datetime ms =>
      [{ ParentPath := path, KeyName := key, StartingValue := (Int.fdiv ms 1000) * 1000 }]
  | .timestamp t i =>
      [{ ParentPath := path, KeyName := key, StartingValue := (t : Int) * 1000 },
       { ParentPath := path, KeyName := key ++ ".inc", StartingValue := (i : Int) }]

end

/-- Shape of a BSON value: the value with every leaf payload erased.  Two
documents "differ only in leaf values but have the same shape (same keys,
same order, same value types)" exactly when their shapes are equal. -/
inductive ValShape where
  | objectId
  | strT
  | decimal128
  | other
  | array (a : Option (List ValShape))
  | doc (elems : List (String × ValShape))
  | boolean
  | double
  | int32
  | int64
  | datetime
  | timestamp

mutual

/-- Shape of a single value. -/
def shapeVal : BsonValue → ValShape
  | .objectId => .objectId
  | .str _ => .strT
  | .decimal128 => .decimal128
  | .other => .other
  | .array none => .array none
  | .array (some l) => .array (some (shapeList l))
  | .doc elems => .doc (shapeElems elems)
  | .boolean _ => .boolean
  | .double _ => .double
  | .int32 _ => .int32
  | .int64 _ => .int64
  | .datetime _ => .datetime
  | .timestamp _ _ => .timestamp

/-- Shapes of an array's elements. -/
def shapeList : List BsonValue → List ValShape
  | [] => []
  | v :: rest => shapeVal v :: shapeList rest

/-- Shapes of a document's elements (keys kept). -/
def shapeElems : List (String × BsonValue) → List (String × ValShape)
  | [] => []
  | (k, v) :: rest => (k, shapeVal v) :: shapeElems rest

end

/-- Projection of a metric list to its ordered `(path, key)` schema. -/
def schemaOf (l : List Metric) : List (List String × String) :=
  l.map (fun m => (m.ParentPath, m.KeyName))

mutual

/-- Schema computed from a document shape alone, mirroring
`flattenDocument`. -/
def ssElems (path : List String) : List (String × ValShape) → List (List String × String)
  | [] => []
  | (k, s) :: rest => ssVal k path s ++ ssElems path rest

/-- Schema computed from an array shape alone, mirroring `arrayLoop`. -/
def ssArrLoop (key : String) (path : List String) (idx : Nat) :
    List ValShape → List (List String × String)
  | [] => []
  | s :: rest => ssVal (key ++ "." ++ toString idx) path s ++ ssArrLoop key path (idx + 1) rest

/-- Schema computed from a value shape alone, mirroring `metricForType`. -/
def ssVal (key : String) (path : List String) : ValShape → List (List String × String)
  | .objectId => []
  | .strT => []
  | .decimal128 => []
  | .other => []
  | .array none => []
  | .array (some l) => ssArrLoop key path 0 l
  | .doc elems => (ssElems (path ++ [key]) elems).map (fun pr => (path ++ [key], pr.2))
  | .boolean => [(path, key)]
  | .double => [(path, key)]
  | .int32 => [(path, key)]
  | .int64 => [(path, key)]
  | .datetime => [(path, key)]
  | .timestamp => [(path, key), (path, key ++ ".inc")]

end

theorem schemaOf_append (a b : List Metric) :
    schemaOf (a ++ b) = schemaOf a ++ schemaOf b := by
  simp [schemaOf]

mutual

/-- The schema of a flattened document depends only on the document's
shape. -/
theorem schemaOf_flattenDocument (path : List String) (elems : List (String × BsonValue)) :
    schemaOf (flattenDocument path elems) = ssElems path (shapeElems elems) :=
  match elems with
  | [] => by simp [flattenDocument, shapeElems, ssElems, schemaOf]
  | (k, v) :: rest => by
      rw [flattenDocument, shapeElems, ssElems, schemaOf_append,
        schemaOf_metricForType k path v, schemaOf_flattenDocument path rest]

/-- The schema of a flattened array depends only on the element shapes. -/
theorem schemaOf_arrayLoop (key : String) (path : List String) (idx : Nat)
    (l : List BsonValue) :
    schemaOf (arrayLoop key path idx l) = ssArrLoop key path idx (shapeList l) :=
  match l with
  | [] => by simp [arrayLoop, shapeList, ssArrLoop, schemaOf]
  | v :: rest => by
      rw [arrayLoop, shapeList, ssArrLoop, schemaOf_append,
        schemaOf_metricForType _ path v, schemaOf_arrayLoop key path (idx + 1) rest]

/-- The schema contributed by a single value depends only on its shape. -/
theorem schemaOf_metricForType (key : String) (path : List String) (val : BsonValue) :
    schemaOf (metricForType key path val) = ssVal key path (shapeVal val) :=
  match val with
  | .objectId => by simp [metricForType, shapeVal, ssVal, schemaOf]
  | .str _ => by simp [metricForType, shapeVal, ssVal, schemaOf]
  | .decimal128 => by simp [metricForType, shapeVal, ssVal, schemaOf]
  | .other => by simp [metricForType, shapeVal, ssVal, schemaOf]
  | .array none => by simp [metricForType, flattenArray, shapeVal, ssVal, schemaOf]
  | .array (some l) => by
      rw [metricForType, flattenArray, shapeVal, ssVal, schemaOf_arrayLoop key path 0 l]
  | .doc elems => by
      rw [metricForType, shapeVal, ssVal]
      rw [show schemaOf ((flattenDocument (path ++ [key]) elems).map (fun ne =>
            { ParentPath := path ++ [key], KeyName := ne.KeyName,
              StartingValue := ne.StartingValue })) =
          (schemaOf (flattenDocument (path ++ [key]) elems)).map
            (fun pr => (path ++ [key], pr.2)) by simp [schemaOf]]
      rw [schemaOf_flattenDocument (path ++ [key]) elems]
  | .boolean b => by cases b <;> simp [metricForType, shapeVal, ssVal, schemaOf]
  | .double _ => by simp [metricForType, shapeVal, ssVal, schemaOf]
  | .int32 _ => by simp [metricForType, shapeVal, ssVal, schemaOf]
  | .int64 _ => by simp [metricForType, shapeVal, ssVal, schemaOf]
  | .datetime _ => by simp [metricForType, shapeVal, ssVal, schemaOf]
  | .timestamp _ _ => by simp [metricForType, shapeVal, ssVal, schemaOf]

end

/-- Metric as the CLI (`cmd/ftdc/main.go`) sees it, via the
`ftdc-utils` package: a fully qualified `Key`, the starting `Value` and
the `Deltas` slice. -/
structure CliMetric where
  Key : String
  Value : Int
  Deltas : List Int
  deriving DecidableEq

/-- Chunk as the CLI sees it: its metrics and its delta count. -/
structure CliChunk where
  Metrics : List CliMetric
  NDeltas : Nat
  deriving DecidableEq

/-- Loop body of the merge branch of `decode` (main.go): for one metric
`m` of the current chunk, either append its deltas to the entry already
in `total` (keeping the existing `Value`) or insert `m` as is. -/
def mergeStep (total : String → Option CliMetric) (m : CliMetric) : String → Option CliMetric :=
  fun x =>
    if x = m.Key then
      match total m.Key with
      | some old => some { Key := m.Key, Value := old.Value, Deltas := old.Deltas ++ m.Deltas }
      | none => some m
    else total x

/-- Merge of one chunk's metrics into the running `total` map. -/
def mergeChunkMetrics (total : String → Option CliMetric) (ms : List CliMetric) :
    String → Option CliMetric :=
  ms.foldl mergeStep total

/-- The merge branch of `decode` (main.go, `shouldMerge`): fold every
chunk's metrics into one map, starting from the empty map.  The source
comment "!! this expects contigious chunks" flags that no temporal
contiguity is checked. -/
def mergeChunks (cs : List CliChunk) : String → Option CliMetric :=
  cs.foldl (fun total c => mergeChunkMetrics total c.Metrics) (fun _ => none)

/-- Result of the producer goroutine running `ftdc.Chunks` on one file:
the chunks it sent on the channel before returning, and the error it
returned (printed to stderr by the goroutine), if any.  The channel is
closed when `Chunks` returns, so the consumer receives exactly
`chunks`. -/
structure StreamResult where
  chunks : List CliChunk
  parseError : Option String

/-- Output payload of `decode` (main.go): either the chunk list or the
merged metric map. -/
inductive DecodeOut where
  | chunkList (cs : List CliChunk)
  | merged (total : String → Option CliMetric)

/-- Chunk-collection loop shared by `decode` and `export` (main.go):
`for c := range o { if !c.Clip(start, end) { continue }; ... }`.  The
`Clip` test itself lives in the external `ftdc-utils` package, so it is
passed here as an opaque chunk-level predicate. -/
def decodeKept (clip : CliChunk → Bool) (chunks : List CliChunk) : List CliChunk :=
  chunks.foldl (fun cs c => if clip c then cs ++ [c] else cs) []

/-- Stderr messages produced while decoding one file: the producer
goroutine prints a stream-fatal parse error instead of propagating it
(per-chunk overview logging is omitted as irrelevant here). -/
def stderrOf (r : StreamResult) : List String :=
  match r.parseError with
  | some e => ["error: failed to parse chunks: " ++ e]
  | none => []

/-- Embedding of `decode` (main.go) for one input file: collect the
clip-surviving chunks, fail with "no chunks found" when none survive,
otherwise return them (merged when `shouldMerge`).  The second component
is what reached stderr.  Note the parse error of the chunk stream never
reaches the returned `Except` value. -/
def decodeGo (clip : CliChunk → Bool) (shouldMerge : Bool) (r : StreamResult) :
    Except String DecodeOut × List String :=
  let cs := decodeKept clip r.chunks
  if cs.isEmpty then (Except.error "no chunks found", stderrOf r)
  else if shouldMerge then (Except.ok (DecodeOut.merged (mergeChunks cs)), stderrOf r)
  else (Except.ok (DecodeOut.chunkList cs), stderrOf r)

/-- Embedding of the emission loop of `export` (main.go): for every
clip-surviving chunk, in order, emit the documents of `c.Expand(...)`.
`Expand` lives in the external `ftdc-utils` package and is passed as an
opaque function. -/
def exportDocs {D : Type} (expand : CliChunk → List D) (clip : CliChunk → Bool)
    (chunks : List CliChunk) : List D :=
  chunks.foldl (fun acc c => if clip c then acc ++ expand c else acc) []

/-- Two's-complement reading of a 32-bit pattern, modelling Go's
`int(int32(u))` on a `uint32` value. -/
def int32Of (u : Nat) : Int :=
  if u % 2 ^ 32 < 2 ^ 31 then ((u % 2 ^ 32 : Nat) : Int)
  else ((u % 2 ^ 32 : Nat) : Int) - 2 ^ 32

/-- Embedding of `unpackInt` (sample_iterator.go): assemble the four
bytes little-endian with shifts and ors, then pass the 32-bit pattern
through `int32` and widen to `int`. -/
def unpackInt (b0 b1 b2 b3 : Fin 256) : Int :=
  int32Of (b0.val ||| (b1.val <<< 8) ||| (b2.val <<< 16) ||| (b3.val <<< 24))

/-- Modelled from the spec: the `Chunk` and `Metric` types used by
`streamDocuments` are not part of the sources (only `sample_iterator.go`
uses them).  Per §3 of the spec a chunk metric has a key (the joined
dotted name returned by `Key()`, stored here directly) and its
reconstructed sample series `Values`, whose length is the chunk's
`n_points = n_deltas + 1`. -/
structure SMetric where
  Key : String
  Values : List Int
  deriving DecidableEq

/-- Modelled from the spec: a chunk as consumed by `streamDocuments`,
with its metrics and its sample count `nPoints` (spec §3: every metric's
series has length `n_points`). -/
structure SChunk where
  metrics : List SMetric
  nPoints : Nat
  deriving DecidableEq

/-- Document built for sample index `i`: one int64 element per metric,
keyed by the metric's key, in metric order.  Go's `m.Values[i]` panics
when `i` is out of range; the document is `none` in that case. -/
def sampleDoc (c : SChunk) (i : Nat) : Option (List (String × Int)) :=
  c.metrics.mapM (fun m => (m.Values.get? i).map (fun v => (m.Key, v)))

/-- Embedding of the loop of `streamDocuments` (sample_iterator.go):
`for i := 0; i < c.nPoints+1; i++` builds and emits the sample document
for each index. -/
def streamDocuments (c : SChunk) : List (Option (List (String × Int))) :=
  (List.range (c.nPoints + 1)).map (sampleDoc c)

theorem flattenDocument_append (path : List String) (xs ys : List (String × BsonValue)) :
    flattenDocument path (xs ++ ys) = flattenDocument path xs ++ flattenDocument path ys := by
  induction xs with
  | nil => simp [flattenDocument]
  | cons kv rest ih =>
      obtain ⟨k, v⟩ := kv
      simp [flattenDocument, ih]

theorem foldl_keep_eq_filter (clip : CliChunk → Bool) (chunks acc : List CliChunk) :
    chunks.foldl (fun cs c => if clip c then cs ++ [c] else cs) acc =
      acc ++ chunks.filter clip := by
  induction chunks generalizing acc with
  | nil => simp
  | cons c rest ih =>
      by_cases h : clip c <;> simp [h, ih, List.filter_cons]

theorem decodeKept_eq_filter (clip : CliChunk → Bool) (chunks : List CliChunk) :
    decodeKept clip chunks = chunks.filter clip := by
  simpa using foldl_keep_eq_filter clip chunks []

theorem foldl_export_eq {D : Type} (expand : CliChunk → List D) (clip : CliChunk → Bool)
    (chunks : List CliChunk) (acc : List D) :
    chunks.foldl (fun a c => if clip c then a ++ expand c else a) acc =
      acc ++ ((chunks.filter clip).map expand).flatten := by
  induction chunks generalizing acc with
  | nil => simp
  | cons c rest ih =>
      by_cases h : clip c <;> simp [h, ih, List.filter_cons]

theorem exportDocs_eq {D : Type} (expand : CliChunk → List D) (clip : CliChunk → Bool)
    (chunks : List CliChunk) :
    exportDocs expand clip chunks = ((chunks.filter clip).map expand).flatten := by
  simpa using foldl_export_eq expand clip chunks []

/-- Combining function seen by one metric key across the chunk fold: the
first occurrence is inserted as is, later ones append their deltas while
the `Value` of the first is kept. -/
def mergeAcc (acc : Option CliMetric) (m : CliMetric) : Option CliMetric :=
  match acc with
  | none => some m
  | some old => some { Key := m.Key, Value := old.Value, Deltas := old.Deltas ++ m.Deltas }

theorem find?_eq_none_of_key_notin (k : String) (ms : List CliMetric)
    (h : ∀ m ∈ ms, m.Key ≠ k) :
    ms.find? (fun m => m.Key == k) = none := by
  rw [List.find?_eq_none]
  intro m hm
  simpa using h m hm

theorem mergeChunkMetrics_lookup (ms : List CliMetric) (total : String → Option CliMetric)
    (k : String) (h : (ms.map CliMetric.Key).Nodup) :
    mergeChunkMetrics total ms k =
      match ms.find? (fun m => m.Key == k) with
      | none => total k
      | some m => mergeAcc (total k) m := by
  induction ms generalizing total with
  | nil => simp [mergeChunkMetrics]
  | cons m rest ih =>
      simp only [List.map_cons, List.nodup_cons] at h
      obtain ⟨hout, hnd⟩ := h
      simp only [mergeChunkMetrics, List.foldl_cons] at *
      by_cases hk : m.Key = k
      · subst hk
        have hrest : rest.find? (fun m1 => m1.Key == m.Key) = none := by
          apply find?_eq_none_of_key_notin
          intro m1 hm1 hkey
          exact hout (hkey ▸ List.mem_map_of_mem CliMetric.Key hm1)
        rw [ih _ hnd, hrest]
        simp [List.find?, mergeStep, mergeAcc]
        cases htot : total m.Key <;> simp [htot]
      · have hk2 : ¬k = m.Key := fun hh => hk hh.symm
        have hbeq : (m.Key == k) = false := by simp [hk]
        have hfind : ((m :: rest).find? (fun m1 => m1.Key == k)) =
            rest.find? (fun m1 => m1.Key == k) := by
          simp [List.find?, hbeq]
        rw [ih _ hnd, hfind]
        have hstep : mergeStep total m k = total k := by
          simp [mergeStep, hk2]
        rw [hstep]

theorem mergeChunks_foldl (cs : List CliChunk) (total : String → Option CliMetric)
    (k : String) (h : ∀ c ∈ cs, (c.Metrics.map CliMetric.Key).Nodup) :
    (cs.foldl (fun t c => mergeChunkMetrics t c.Metrics) total) k =
      (cs.filterMap (fun c => c.Metrics.find? (fun m => m.Key == k))).foldl
        mergeAcc (total k) := by
  induction cs generalizing total with
  | nil => simp
  | cons c rest ih =>
      simp only [List.foldl_cons, List.filterMap_cons]
      rw [ih _ (fun c1 hc1 => h c1 (List.mem_cons_of_mem c hc1))]
      have hc := h c (List.mem_cons_self c rest)
      cases hf : c.Metrics.find? (fun m => m.Key == k) with
      | none =>
          rw [mergeChunkMetrics_lookup c.Metrics total k hc, hf]
      | some m =>
          rw [mergeChunkMetrics_lookup c.Metrics total k hc, hf]
          simp

theorem find?_key_eq (ms : List CliMetric) (m : CliMetric) (k : String)
    (h : ms.find? (fun m1 => m1.Key == k) = some m) : m.Key = k := by
  have := List.find?_some h
  simpa using this

theorem foldl_mergeAcc_all (k : String) (ms : List CliMetric)
    (h : ∀ m ∈ ms, m.Key = k) (v : Int) (ds : List Int) :
    ms.foldl mergeAcc (some { Key := k, Value := v, Deltas := ds }) =
      some { Key := k, Value := v, Deltas := ds ++ (ms.map CliMetric.Deltas).flatten } := by
  induction ms generalizing ds with
  | nil => simp
  | cons m rest ih =>
      have hm : m.Key = k := h m (List.mem_cons_self m rest)
      simp only [List.foldl_cons, mergeAcc, hm]
      rw [ih (fun m1 hm1 => h m1 (List.mem_cons_of_mem m hm1)) (ds ++ m.Deltas)]
      simp

theorem or_shiftLeft_eq_add (i a b : Nat) (hb : b < 2 ^ i) :
    b ||| (a <<< i) = 2 ^ i * a + b := by
  apply Nat.eq_of_testBit_eq
  intro j
  rw [Nat.testBit_or, Nat.testBit_shiftLeft, Nat.testBit_mul_pow_two_add a hb j]
  by_cases hj : j < i
  · have hni : ¬(j ≥ i) := by omega
    simp [hj, hni]
  · have hge : j ≥ i := by omega
    have hbj : b.testBit j = false :=
      Nat.testBit_lt_two_pow
        (lt_of_lt_of_le hb (Nat.pow_le_pow_right (by norm_num) hge))
    simp [hj, hge, hbj]

/-- C1, counterexample.  Flattening `{a: {b: {c: 1}}}` yields a single
metric whose path is `["a"]`, while the full ordered sequence of ancestor
document keys of the leaf `c` is `["a", "b"]`: the claim fails at nesting
depth 2. -/
theorem c1_path_counterexample :
    (flattenDocument []
        [("a", BsonValue.doc [("b", BsonValue.doc [("c", BsonValue.int32 1)])])]).map
      Metric.ParentPath = [["a"]] ∧ (["a"] : List String) ≠ ["a", "b"] := by
  decide

/-- C1, amended.  Every metric returned for an embedded-document value is
rebuilt with the current level's path: its `ParentPath` is exactly
`path ++ [key]`, whatever the nesting depth of the originating leaf, so
only the outermost enclosing document key survives (which coincides with
the full ancestor sequence exactly for depth-1 nesting). -/
theorem c1_path_is_outermost_key (path : List String) (key : String)
    (elems : List (String × BsonValue)) (m : Metric)
    (hm : m ∈ metricForType key path (BsonValue.doc elems)) :
    m.ParentPath = path ++ [key] := by
  simp only [metricForType, List.mem_map] at hm
  obtain ⟨ne, _, rfl⟩ := hm
  rfl

/-- C1, witness for the amended theorem at the depth-2 document
`{a: {b: {c: 1}}}`. -/
theorem c1_path_is_outermost_key_witness :
    ({ ParentPath := ["a"], KeyName := "c", StartingValue := 1 } : Metric) ∈
        metricForType "a" []
          (BsonValue.doc [("b", BsonValue.doc [("c", BsonValue.int32 1)])]) ∧
      ({ ParentPath := ["a"], KeyName := "c", StartingValue := 1 } : Metric).ParentPath =
        [] ++ ["a"] :=
  ⟨by decide,
    c1_path_is_outermost_key [] "a" [("b", BsonValue.doc [("c", BsonValue.int32 1)])]
      { ParentPath := ["a"], KeyName := "c", StartingValue := 1 } (by decide)⟩

/-- C2.  Flattening the reference document
`{a: true, b: "ignored", c: {d: 3.7}, t: Timestamp(5,2)}` produces exactly
the four metrics `a`, `c.d`, `t`, `t.inc` in order, with starting values
`1, 3, 5000, 2`; the string leaf `b` contributes nothing.  The double
leaf `3.7` is the exact rational `37/10` (written via `Rat.divInt`). -/
theorem c2_type_mix_flatten :
    flattenDocument []
        [("a", BsonValue.boolean true),
         ("b", BsonValue.str "ignored"),
         ("c", BsonValue.doc [("d", BsonValue.double (Rat.divInt 37 10))]),
         ("t", BsonValue.timestamp 5 2)] =
      [{ ParentPath := [], KeyName := "a", StartingValue := 1 },
       { ParentPath := ["c"], KeyName := "d", StartingValue := 3 },
       { ParentPath := [], KeyName := "t", StartingValue := 5000 },
       { ParentPath := [], KeyName := "t.inc", StartingValue := 2 }] := by
  decide

/-- C3.  Two reference documents with equal shape (same keys, same order,
same value types, recursively) flatten to identical ordered `(path, key)`
sequences. -/
theorem c3_schema_shape_only (path : List String) (d1 d2 : List (String × BsonValue))
    (h : shapeElems d1 = shapeElems d2) :
    schemaOf (flattenDocument path d1) = schemaOf (flattenDocument path d2) := by
  rw [schemaOf_flattenDocument, schemaOf_flattenDocument, h]

/-- C3, witness: two documents differing only in an int32 leaf value. -/
theorem c3_schema_shape_only_witness :
    shapeElems [("x", BsonValue.int32 1)] = shapeElems [("x", BsonValue.int32 2)] ∧
      schemaOf (flattenDocument [] [("x", BsonValue.int32 1)]) =
        schemaOf (flattenDocument [] [("x", BsonValue.int32 2)]) :=
  ⟨rfl, c3_schema_shape_only [] _ _ rfl⟩

/-- C4, counterexample.  A datetime leaf holding 1234 milliseconds since
the epoch flattens to starting value 1000 (`DateTime().Unix()` keeps only
whole seconds before the `* 1000`), not to its exact millisecond count
1234. -/
theorem c4_datetime_counterexample :
    flattenDocument [] [("d", BsonValue.datetime 1234)] =
        [{ ParentPath := [], KeyName := "d", StartingValue := 1000 }] ∧
      (1000 : Int) ≠ 1234 := by
  decide

/-- C4, amended.  A datetime leaf of `ms` milliseconds since the epoch
contributes exactly one metric whose starting value is
`(ms / 1000 rounded down) * 1000`: the millisecond count rounded down to
a whole second, losing any sub-second component. -/
theorem c4_datetime_whole_seconds (path : List String) (pre post : List (String × BsonValue))
    (key : String) (ms : Int) :
    flattenDocument path (pre ++ (key, BsonValue.datetime ms) :: post) =
      flattenDocument path pre ++
        ({ ParentPath := path, KeyName := key, StartingValue := (Int.fdiv ms 1000) * 1000 } ::
          flattenDocument path post) := by
  rw [flattenDocument_append]
  simp [flattenDocument, metricForType]

/-- C5.  In merge mode, the merged map sends a key to the metric whose
deltas are the plain concatenation, in chunk order, of that key's delta
slices from every chunk containing it, with the starting value of the
first chunk containing it; nothing about the values is checked (no
temporal contiguity test). -/
theorem c5_merge_concatenates (cs : List CliChunk)
    (h : ∀ c ∈ cs, (c.Metrics.map CliMetric.Key).Nodup) (k : String) :
    mergeChunks cs k =
      match cs.filterMap (fun c => c.Metrics.find? (fun m => m.Key == k)) with
      | [] => none
      | m :: rest =>
          some { Key := k, Value := m.Value,
                 Deltas := ((m :: rest).map CliMetric.Deltas).flatten } := by
  unfold mergeChunks
  rw [mergeChunks_foldl cs (fun _ => none) k h]
  cases hf : cs.filterMap (fun c => c.Metrics.find? (fun m => m.Key == k)) with
  | nil => simp
  | cons m rest =>
      have hmem : ∀ m1 ∈ m :: rest, m1.Key = k := by
        intro m1 hm1
        have : m1 ∈ cs.filterMap (fun c => c.Metrics.find? (fun m => m.Key == k)) :=
          hf ▸ hm1
        obtain ⟨c, _, hfind⟩ := List.mem_filterMap.mp this
        exact find?_key_eq c.Metrics m1 k hfind
      have hmk : m.Key = k := hmem m (List.mem_cons_self m rest)
      obtain ⟨mk, mv, md⟩ := m
      simp only at hmk
      subst hmk
      simp only [List.foldl_cons, mergeAcc]
      rw [foldl_mergeAcc_all mk rest
        (fun m1 hm1 => hmem m1 (List.mem_cons_of_mem _ hm1)) mv md]
      simp

/-- C5, witness: two chunks both containing key `a`. -/
theorem c5_merge_concatenates_witness :
    (∀ c ∈ [CliChunk.mk [CliMetric.mk "a" 1 [1, 2]] 2,
             CliChunk.mk [CliMetric.mk "a" 9 [3]] 1],
        (c.Metrics.map CliMetric.Key).Nodup) ∧
      mergeChunks [CliChunk.mk [CliMetric.mk "a" 1 [1, 2]] 2,
                   CliChunk.mk [CliMetric.mk "a" 9 [3]] 1] "a" =
        some { Key := "a", Value := 1, Deltas := [1, 2, 3] } := by
  refine ⟨by decide, ?_⟩
  rw [c5_merge_concatenates _ (by decide) "a"]
  decide

/-- C6, counterexample.  With one chunk already delivered and a
stream-fatal parse failure `"BOOM"`, `decode` returns the chunk list as a
successful result while the failure surfaces only as a stderr message:
the parse error is not returned to the caller. -/
theorem c6_error_counterexample :
    (decodeGo (fun _ => true) false
        { chunks := [CliChunk.mk [] 0], parseError := some "BOOM" }).1 =
        Except.ok (DecodeOut.chunkList [CliChunk.mk [] 0]) ∧
      (decodeGo (fun _ => true) false
        { chunks := [CliChunk.mk [] 0], parseError := some "BOOM" }).2 =
        ["error: failed to parse chunks: BOOM"] :=
  ⟨rfl, rfl⟩

/-- C6, amended.  A mid-file parse failure is reported only on stderr;
`decode` still returns the chunks read before the failure (post-clip) as
a successful result whenever any survive — the error value it returns is
never the parse failure. -/
theorem c6_error_goes_to_stderr (clip : CliChunk → Bool) (merge : Bool)
    (r : StreamResult) (e : String) (h : r.parseError = some e) :
    (decodeGo clip merge r).2 = ["error: failed to parse chunks: " ++ e] ∧
      ((decodeKept clip r.chunks).isEmpty = false →
        ∃ out, (decodeGo clip merge r).1 = Except.ok out) := by
  constructor
  · cases hb : (decodeKept clip r.chunks).isEmpty <;> cases merge <;>
      simp [decodeGo, hb, stderrOf, h]
  · intro hne
    cases merge <;> simp [decodeGo, hne, stderrOf, h]

/-- C6, witness for the amended theorem. -/
theorem c6_error_goes_to_stderr_witness :
    ({ chunks := [CliChunk.mk [] 0], parseError := some "BOOM" } :
        StreamResult).parseError = some "BOOM" ∧
      ((decodeGo (fun _ => true) false
          { chunks := [CliChunk.mk [] 0], parseError := some "BOOM" }).2 =
        ["error: failed to parse chunks: " ++ "BOOM"] ∧
      ((decodeKept (fun _ => true)
          [CliChunk.mk [] 0]).isEmpty = false →
        ∃ out, (decodeGo (fun _ => true) false
          { chunks := [CliChunk.mk [] 0], parseError := some "BOOM" }).1 =
            Except.ok out)) :=
  ⟨rfl, c6_error_goes_to_stderr (fun _ => true) false _ "BOOM" rfl⟩

/-- C7.  Both `decode` and `export` keep exactly the chunks passing the
chunk-level `Clip` test, each included whole and unchanged; `export`
emits the expansion of each kept chunk in full.  No chunk is subsetted:
the output is determined chunk-by-chunk by `filter`. -/
theorem c7_clip_whole_chunks (clip : CliChunk → Bool) (chunks : List CliChunk) :
    decodeKept clip chunks = chunks.filter clip ∧
      ∀ (D : Type) (expand : CliChunk → List D),
        exportDocs expand clip chunks = ((chunks.filter clip).map expand).flatten :=
  ⟨decodeKept_eq_filter clip chunks, fun _ expand => exportDocs_eq expand clip chunks⟩

/-- C8, counterexample.  The four bytes `00 00 00 80` encode the
little-endian unsigned value `2^31 = 2147483648`, but `unpackInt` returns
`-2147483648`: values at or above `2^31` come back negative. -/
theorem c8_unpack_counterexample :
    unpackInt 0 0 0 128 = -2147483648 ∧ (-2147483648 : Int) ≠ 2147483648 := by
  decide

/-- C8, amended.  `unpackInt` returns the two's-complement signed 32-bit
reading of the little-endian value `u`: `u` itself for `u < 2^31`, and
`u - 2^32` otherwise.  Only values below `2^31` round-trip unchanged. -/
theorem c8_unpack_signed (b0 b1 b2 b3 : Fin 256) :
    unpackInt b0 b1 b2 b3 =
      if b0.val + 2 ^ 8 * b1.val + 2 ^ 16 * b2.val + 2 ^ 24 * b3.val < 2 ^ 31
      then ((b0.val + 2 ^ 8 * b1.val + 2 ^ 16 * b2.val + 2 ^ 24 * b3.val : Nat) : Int)
      else ((b0.val + 2 ^ 8 * b1.val + 2 ^ 16 * b2.val + 2 ^ 24 * b3.val : Nat) : Int)
        - 2 ^ 32 := by
  have h0 := b0.isLt
  have h1 := b1.isLt
  have h2 := b2.isLt
  have h3 := b3.isLt
  have e1 : b0.val ||| (b1.val <<< 8) = 2 ^ 8 * b1.val + b0.val :=
    or_shiftLeft_eq_add 8 b1.val b0.val (by omega)
  have e2 : (2 ^ 8 * b1.val + b0.val) ||| (b2.val <<< 16) =
      2 ^ 16 * b2.val + (2 ^ 8 * b1.val + b0.val) :=
    or_shiftLeft_eq_add 16 b2.val _ (by omega)
  have e3 : (2 ^ 16 * b2.val + (2 ^ 8 * b1.val + b0.val)) ||| (b3.val <<< 24) =
      2 ^ 24 * b3.val + (2 ^ 16 * b2.val + (2 ^ 8 * b1.val + b0.val)) :=
    or_shiftLeft_eq_add 24 b3.val _ (by omega)
  have hn : 2 ^ 24 * b3.val + (2 ^ 16 * b2.val + (2 ^ 8 * b1.val + b0.val)) =
      b0.val + 2 ^ 8 * b1.val + 2 ^ 16 * b2.val + 2 ^ 24 * b3.val := by ring
  have hlt : b0.val + 2 ^ 8 * b1.val + 2 ^ 16 * b2.val + 2 ^ 24 * b3.val < 2 ^ 32 := by
    omega
  rw [unpackInt, e1, e2, e3, hn, int32Of, Nat.mod_eq_of_lt hlt]

/-- C9, evaluation at the failing input.  For the chunk with one metric
`start` whose reconstructed series is `[5]` (one sample, `nPoints = 1`
per the spec's `n_points = n_deltas + 1` with no deltas), the
`streamDocuments` loop `for i := 0; i < c.nPoints+1; i++` emits the
sample-0 document and then reads `Values[1]`, which is out of the series'
range (`none` here, an index-out-of-range panic in Go). -/
theorem c9_stream_overruns :
    streamDocuments { metrics := [{ Key := "start", Values := [5] }], nPoints := 1 } =
      [some [("start", 5)], none] := by
  decide

/-- C10.  When the array iterator cannot be constructed, `flattenArray`
returns the empty metric list, and the array value contributes no metric
through `metricForType`; the error is not surfaced (the return type
carries no error channel). -/
theorem c10_bad_array_silent (key : String) (path : List String)
    (a : Option (List BsonValue)) (e : String)
    (h : newArrayIterator a = Except.error e) :
    flattenArray key path a = [] ∧ metricForType key path (BsonValue.array a) = [] := by
  cases a with
  | none => exact ⟨rfl, rfl⟩
  | some l => simp [newArrayIterator] at h

/-- C10, witness at the failing-iterator array. -/
theorem c10_bad_array_silent_witness :
    newArrayIterator none = Except.error "invalid array" ∧
      (flattenArray "k" [] none = [] ∧
        metricForType "k" [] (BsonValue.array none) = []) :=
  ⟨rfl, c10_bad_array_silent "k" [] none "invalid array" rfl⟩
